import Mathlib

/-!
Shallow embedding of ifacegen (src/ifacegen.go), a generator of interface
stub and mock implementations for Go interfaces.

Conventions of the embedding:
* `go/types.Package` and `go/build.Package` identities are modelled by the
  fields ifacegen reads (import path, display name).
* Go type expressions are modelled by the small grammar `GoType` covering
  the shapes relevant to qualification (basic names, package-qualified named
  types, pointers, slices); `types.TypeString` with a qualifier is modelled by
  `typeString`.
* Import paths handed to the locator are modelled as lists of path segments.
  The vendor-prefix argument of `importPackage` is stored with its segments
  reversed, so that `filepath.Dir` (drop the last segment of a relative
  slash-separated path; the empty list stands for both `""` and `"."`)
  becomes `List.tail`, a structural operation.
* `log.Fatalf` is modelled as returning `Except.error`.
-/

namespace Ifacegen

/-- Identity of a package as ifacegen reads it: import path and display
name (`types.Package.Path()` / `types.Package.Name()`). -/
structure GoPackage where
  path : String
  name : String
deriving DecidableEq, Repr

/-- Embedding of `newPackageQualifier` (src/ifacegen.go:59-66): the returned
qualifier maps a referenced package to the prefix used when rendering its
types in the destination package `thisPkg`. -/
def newPackageQualifier (thisPkg : GoPackage) : GoPackage → String :=
  fun pkg => if pkg.path = thisPkg.path ∨ pkg.name = thisPkg.name then "" else pkg.name

/-- Grammar of the Go type expressions relevant to the qualification logic:
basic (universe) types such as `int` and `error`, named types belonging to a
package, pointers and slices. -/
inductive GoType where
  | basic (name : String)
  | named (pkg : GoPackage) (name : String)
  | ptr (elem : GoType)
  | slice (elem : GoType)
deriving DecidableEq, Repr

/-- Embedding of `types.TypeString(t, qual)` on the `GoType` grammar: a named
type is rendered `qual(pkg) + "." + name` when the qualifier is non-empty and
bare otherwise; basic types render their name; pointers and slices render
their usual prefixes. -/
def typeString (qual : GoPackage → String) : GoType → String
  | .basic n => n
  | .named pkg n =>
    let q := qual pkg
    if q = "" then n else q ++ "." ++ n
  | .ptr t => "*" ++ typeString qual t
  | .slice t => "[]" ++ typeString qual t

/-- Rendering with no qualification at all (every prefix empty): the
"unqualified form" of a type. -/
def plainString : GoType → String := typeString (fun _ => "")

/-- Holds (as `true`) when every named type occurring in `t` belongs to the destination
package in the sense of `newPackageQualifier`: same import path or same
display name. -/
def allInDest (thisPkg : GoPackage) : GoType → Bool
  | .basic _ => true
  | .named pkg _ => pkg.path == thisPkg.path || pkg.name == thisPkg.name
  | .ptr t => allInDest thisPkg t
  | .slice t => allInDest thisPkg t

/-- The already-unqualified form of a type: every named component is replaced
by the bare (package-free) name it renders to inside its own package. -/
def localForm : GoType → GoType
  | .basic n => .basic n
  | .named _ n => .basic n
  | .ptr t => .ptr (localForm t)
  | .slice t => .slice (localForm t)

theorem localForm_no_named (qual : GoPackage → String) (t : GoType) :
    typeString qual (localForm t) = plainString t := by
  induction t with
  | basic n => rfl
  | named pkg n => rfl
  | ptr t ih => simpa [localForm, typeString, plainString] using congrArg ("*" ++ ·) ih
  | slice t ih => simpa [localForm, typeString, plainString] using congrArg ("[]" ++ ·) ih

/-- C4: the qualifier returns the empty string exactly when the foreign
package matches the destination by import path or by display name, and in
every other case it returns the foreign package's display name. (The
well-formedness hypothesis that the foreign package's display name is
non-empty reflects that Go package names are non-empty identifiers.) -/
theorem newPackageQualifier_spec (thisPkg pkg : GoPackage) (h : pkg.name ≠ "") :
    (newPackageQualifier thisPkg pkg = "" ↔
      (pkg.path = thisPkg.path ∨ pkg.name = thisPkg.name)) ∧
    (¬(pkg.path = thisPkg.path ∨ pkg.name = thisPkg.name) →
      newPackageQualifier thisPkg pkg = pkg.name) := by
  constructor
  · constructor
    · intro hq
      by_contra hc
      rw [newPackageQualifier, if_neg hc] at hq
      exact h hq
    · intro hc
      rw [newPackageQualifier, if_pos hc]
  · intro hc
    rw [newPackageQualifier, if_neg hc]

theorem newPackageQualifier_spec_witness :
    (("net/http" : String) ≠ "") ∧
    ((newPackageQualifier ⟨"example.com/app", "app"⟩ ⟨"net/http", "net/http"⟩ = "" ↔
      (("net/http" : String) = "example.com/app" ∨ ("net/http" : String) = "app")) ∧
     (¬(("net/http" : String) = "example.com/app" ∨ ("net/http" : String) = "app") →
      newPackageQualifier ⟨"example.com/app", "app"⟩ ⟨"net/http", "net/http"⟩ = "net/http")) :=
  ⟨by decide, newPackageQualifier_spec ⟨"example.com/app", "app"⟩ ⟨"net/http", "net/http"⟩ (by decide)⟩

/-- C9: qualification is idempotent for destination-package types. Rendering
a type all of whose named components belong to the destination package yields
the unqualified (prefix-free) form, and rendering the already-unqualified
form of such a type through the same qualifier yields that same unqualified
form again. -/
theorem qualify_idempotent (thisPkg : GoPackage) (t : GoType)
    (h : allInDest thisPkg t = true) :
    typeString (newPackageQualifier thisPkg) t = plainString t ∧
    typeString (newPackageQualifier thisPkg) (localForm t) = plainString t := by
  refine ⟨?_, localForm_no_named _ t⟩
  induction t with
  | basic n => rfl
  | named pkg n =>
    have hsame : pkg.path = thisPkg.path ∨ pkg.name = thisPkg.name := by
      have := h
      simp only [allInDest, Bool.or_eq_true, beq_iff_eq] at this
      exact this
    simp [typeString, plainString, newPackageQualifier, if_pos hsame]
  | ptr t ih =>
    have ht : allInDest thisPkg t = true := by simpa [allInDest] using h
    simpa [typeString, plainString] using congrArg ("*" ++ ·) (ih ht)
  | slice t ih =>
    have ht : allInDest thisPkg t = true := by simpa [allInDest] using h
    simpa [typeString, plainString] using congrArg ("[]" ++ ·) (ih ht)

theorem qualify_idempotent_witness :
    (allInDest ⟨"example.com/app", "app"⟩
      (GoType.ptr (GoType.named ⟨"example.com/app", "app"⟩ "Server")) = true) ∧
    (typeString (newPackageQualifier ⟨"example.com/app", "app"⟩)
        (GoType.ptr (GoType.named ⟨"example.com/app", "app"⟩ "Server")) =
      plainString (GoType.ptr (GoType.named ⟨"example.com/app", "app"⟩ "Server")) ∧
     typeString (newPackageQualifier ⟨"example.com/app", "app"⟩)
        (localForm (GoType.ptr (GoType.named ⟨"example.com/app", "app"⟩ "Server"))) =
      plainString (GoType.ptr (GoType.named ⟨"example.com/app", "app"⟩ "Server"))) :=
  ⟨by decide, qualify_idempotent ⟨"example.com/app", "app"⟩
    (GoType.ptr (GoType.named ⟨"example.com/app", "app"⟩ "Server")) (by decide)⟩

/-- One variable of a parameter or result tuple as read by `parseTuple`
(`types.Tuple.At(i)`): its possibly-empty declared name and its type. -/
structure TupleVar where
  name : String
  ty : GoType
deriving DecidableEq, Repr

instance : Inhabited TupleVar := ⟨⟨"", GoType.basic ""⟩⟩

/-- Concatenation of a list of strings (used to state what the accumulating
string loops of the source compute). -/
def strConcat : List String → String
  | [] => ""
  | s :: rest => s ++ strConcat rest

/-- The naming step of `parseTuple` (src/ifacegen.go:227-234): given the
loop index `i`, the `errNameUsed` flag, the declared name and the rendered
type of one tuple entry, returns the name used for the entry together with
the updated flag. An explicitly named entry keeps its name; an anonymous one
(when a name prefix was supplied) becomes `err` for the first anonymous
`error`-typed entry, and `pfx ++ i` otherwise. -/
def tupleEntryStep (pfx : String) (i : Nat) (errNameUsed : Bool)
    (name ty : String) : String × Bool :=
  if name = "" ∧ pfx ≠ "" then
    if ty = "error" ∧ errNameUsed = false then ("err", true)
    else (pfx ++ toString i, errNameUsed)
  else (name, errNameUsed)

/-- Embedding of the loop body of `parseTuple` (src/ifacegen.go:219-243).
`i` is the loop index, `errNameUsed` the flag of the source, `params` and
`args` the accumulated strings. -/
def parseTupleLoop (pkgQual : GoPackage → String) (pfx : String) :
    Nat → Bool → String → String → List TupleVar → String × String
  | _, _, params, args, [] => (params, args)
  | i, errNameUsed, params, args, v :: rest =>
    let ty := typeString pkgQual v.ty
    let p := tupleEntryStep pfx i errNameUsed v.name ty
    let params2 := if i ≠ 0 then params ++ ", " else params
    let args2 := if i ≠ 0 then args ++ ", " else args
    parseTupleLoop pkgQual pfx (i + 1) p.2 (params2 ++ (p.1 ++ " " ++ ty)) (args2 ++ p.1) rest

/-- Embedding of `parseTuple` (src/ifacegen.go:219-243): renders a tuple as
the declaration-form text (`name type`, comma separated) and the bare-names
text. `pfx` is the `namePrefix` argument of the source. -/
def parseTuple (thisPkg : GoPackage) (tuple : List TupleVar) (pfx : String) : String × String :=
  parseTupleLoop (newPackageQualifier thisPkg) pfx 0 false "" "" tuple

/-- The per-entry view of the same loop: the list of (name, rendered type)
pairs that `parseTuple` joins into its two strings, with the identical naming
logic and `errNameUsed` threading. -/
def parseTupleEntries (pkgQual : GoPackage → String) (pfx : String) :
    Nat → Bool → List TupleVar → List (String × String)
  | _, _, [] => []
  | i, errNameUsed, v :: rest =>
    let ty := typeString pkgQual v.ty
    let p := tupleEntryStep pfx i errNameUsed v.name ty
    (p.1, ty) :: parseTupleEntries pkgQual pfx (i + 1) p.2 rest

/-- Tail part of the declaration-form text: every entry preceded by a comma
separator. -/
def sepDecl (es : List (String × String)) : String :=
  strConcat (es.map fun e => ", " ++ e.1 ++ " " ++ e.2)

/-- Declaration-form text of a list of entries (`name type`, comma
separated). -/
def declText : List (String × String) → String
  | [] => ""
  | e :: es => e.1 ++ " " ++ e.2 ++ sepDecl es

/-- Tail part of the bare-names text. -/
def sepArgs (es : List (String × String)) : String :=
  strConcat (es.map fun e => ", " ++ e.1)

/-- Bare-names text of a list of entries (comma separated names). -/
def argsText : List (String × String) → String
  | [] => ""
  | e :: es => e.1 ++ sepArgs es

theorem parseTupleLoop_pos (pkgQual : GoPackage → String) (pfx : String)
    (l : List TupleVar) : ∀ (i : Nat) (eu : Bool) (P A : String),
    parseTupleLoop pkgQual pfx (i + 1) eu P A l =
      (P ++ sepDecl (parseTupleEntries pkgQual pfx (i + 1) eu l),
       A ++ sepArgs (parseTupleEntries pkgQual pfx (i + 1) eu l)) := by
  induction l with
  | nil =>
    intro i eu P A
    simp [parseTupleLoop, parseTupleEntries, sepDecl, sepArgs, strConcat]
  | cons v rest ih =>
    intro i eu P A
    have h1 : (i + 1) ≠ 0 := Nat.succ_ne_zero i
    simp only [parseTupleLoop, parseTupleEntries, if_pos h1]
    rw [ih]
    simp [sepDecl, sepArgs, strConcat, String.append_assoc]

theorem parseTuple_eq_entries (thisPkg : GoPackage) (tuple : List TupleVar)
    (pfx : String) :
    parseTuple thisPkg tuple pfx =
      (declText (parseTupleEntries (newPackageQualifier thisPkg) pfx 0 false tuple),
       argsText (parseTupleEntries (newPackageQualifier thisPkg) pfx 0 false tuple)) := by
  cases tuple with
  | nil => rfl
  | cons v rest =>
    show parseTupleLoop (newPackageQualifier thisPkg) pfx 0 false "" "" (v :: rest) = _
    have h0 : ¬((0 : Nat) ≠ 0) := fun h => h rfl
    simp only [parseTupleLoop, parseTupleEntries, if_neg h0]
    rw [parseTupleLoop_pos]
    simp [declText, argsText, String.append_assoc]

/-- Holds (as `true`) when a tuple entry is anonymous and its rendered type is exactly
`error`: the entries eligible for the synthesized name `err`. -/
def anonError (pkgQual : GoPackage → String) (v : TupleVar) : Bool :=
  v.name == "" && typeString pkgQual v.ty == "error"

theorem forall_lt_succ_shift (P : Nat → Prop) (j : Nat) :
    (∀ k, k < j + 1 → P k) ↔ P 0 ∧ ∀ k, k < j → P (k + 1) := by
  constructor
  · intro h
    exact ⟨h 0 (Nat.succ_pos j), fun k hk => h (k + 1) (Nat.succ_lt_succ hk)⟩
  · rintro ⟨h0, h⟩ k hk
    cases k with
    | zero => exact h0
    | succ k => exact h k (Nat.lt_of_succ_lt_succ hk)

theorem tupleEntryStep_snd_false (pkgQual : GoPackage → String) (pfx : String)
    (hp : pfx ≠ "") (v : TupleVar) (i : Nat) (eu : Bool) :
    ((tupleEntryStep pfx i eu v.name (typeString pkgQual v.ty)).2 = false) ↔
      (eu = false ∧ anonError pkgQual v = false) := by
  cases eu <;> by_cases hn : v.name = "" <;>
    by_cases he : typeString pkgQual v.ty = "error" <;>
      simp [tupleEntryStep, anonError, hn, hp, he]

theorem parseTupleEntries_name (pkgQual : GoPackage → String) (pfx : String)
    (hp : pfx ≠ "") (l : List TupleVar) :
    ∀ (i0 : Nat) (eu : Bool) (j : Nat), j < l.length →
    ((parseTupleEntries pkgQual pfx i0 eu l).getD j ("", "")).1 =
      (if (l.getD j default).name ≠ "" then (l.getD j default).name
       else if typeString pkgQual (l.getD j default).ty = "error" ∧ eu = false ∧
              (∀ k, k < j → anonError pkgQual (l.getD k default) = false) then "err"
       else pfx ++ toString (i0 + j)) := by
  induction l with
  | nil =>
    intro i0 eu j hj
    exact absurd hj (Nat.not_lt_zero j)
  | cons v rest ih =>
    intro i0 eu j hj
    cases j with
    | zero =>
      simp only [parseTupleEntries, List.getD_cons_zero]
      by_cases hn : v.name = ""
      · by_cases hee : typeString pkgQual v.ty = "error" ∧ eu = false
        · simp [tupleEntryStep, hn, hp, hee.1, hee.2, Nat.not_lt_zero]
        · have h2 : ¬(typeString pkgQual v.ty = "error" ∧ eu = false ∧
              ∀ k, k < 0 → anonError pkgQual ((v :: rest).getD k default) = false) := by
            intro hc
            exact hee ⟨hc.1, hc.2.1⟩
          simp [tupleEntryStep, hn, hp, hee, h2]
      · simp [tupleEntryStep, hn]
    | succ j =>
      have hj2 : j < rest.length := Nat.lt_of_succ_lt_succ hj
      simp only [parseTupleEntries, List.getD_cons_succ]
      rw [ih (i0 + 1) ((tupleEntryStep pfx i0 eu v.name (typeString pkgQual v.ty)).2) j hj2]
      have hstep := tupleEntryStep_snd_false pkgQual pfx hp v i0 eu
      have hshift : (∀ k, k < j + 1 → anonError pkgQual ((v :: rest).getD k default) = false) ↔
          (anonError pkgQual v = false ∧
            ∀ k, k < j → anonError pkgQual (rest.getD k default) = false) := by
        rw [forall_lt_succ_shift]
        simp only [List.getD_cons_zero, List.getD_cons_succ]
      have hcond : (typeString pkgQual (rest.getD j default).ty = "error" ∧
            (tupleEntryStep pfx i0 eu v.name (typeString pkgQual v.ty)).2 = false ∧
            (∀ k, k < j → anonError pkgQual (rest.getD k default) = false)) ↔
          (typeString pkgQual (rest.getD j default).ty = "error" ∧ eu = false ∧
            (∀ k, k < j + 1 → anonError pkgQual ((v :: rest).getD k default) = false)) := by
        rw [hstep, hshift]
        exact and_congr_right fun _ => and_assoc
      have harith : i0 + 1 + j = i0 + (j + 1) := by omega
      rw [harith]
      exact if_congr Iff.rfl rfl (if_congr hcond rfl rfl)

/-- C3: `parseTuple` keeps explicit names verbatim; among anonymous entries
the first whose rendered type is exactly `error` is named `err` (at most once
per tuple: later anonymous `error` entries fall through), and every other
anonymous entry is named `pfx ++ j` with `j` its original positional index
in the tuple. The first conjunct ties the per-entry view to the strings the
source builds. -/
theorem parseTuple_name_synthesis (thisPkg : GoPackage) (tuple : List TupleVar)
    (pfx : String) (hp : pfx ≠ "") (j : Nat) (hj : j < tuple.length) :
    parseTuple thisPkg tuple pfx =
      (declText (parseTupleEntries (newPackageQualifier thisPkg) pfx 0 false tuple),
       argsText (parseTupleEntries (newPackageQualifier thisPkg) pfx 0 false tuple)) ∧
    ((parseTupleEntries (newPackageQualifier thisPkg) pfx 0 false tuple).getD j ("", "")).1 =
      (if (tuple.getD j default).name ≠ "" then (tuple.getD j default).name
       else if typeString (newPackageQualifier thisPkg) (tuple.getD j default).ty = "error" ∧
              (∀ k, k < j →
                anonError (newPackageQualifier thisPkg) (tuple.getD k default) = false)
         then "err"
         else pfx ++ toString j) := by
  refine ⟨parseTuple_eq_entries thisPkg tuple pfx, ?_⟩
  rw [parseTupleEntries_name (newPackageQualifier thisPkg) pfx hp tuple 0 false j hj]
  simp only [eq_self_iff_true, true_and, and_true, Nat.zero_add]

theorem parseTuple_name_synthesis_witness :
    ((parseTupleEntries (newPackageQualifier ⟨"p", "p"⟩) "r" 0 false
        [⟨"", GoType.basic "int"⟩, ⟨"", GoType.basic "error"⟩,
         ⟨"", GoType.basic "error"⟩]).getD 2 ("", "")).1 = "r2" := by
  have h := parseTuple_name_synthesis ⟨"p", "p"⟩
      [⟨"", GoType.basic "int"⟩, ⟨"", GoType.basic "error"⟩, ⟨"", GoType.basic "error"⟩]
      "r" (by decide) 2 (by decide)
  rw [h.2]
  decide

/-- C10: the at-most-once guard on the synthesized name `err` counts only
synthesized names. An explicitly named `err error` result followed by an
anonymous `error` result still gets the synthesized name `err`, so the
rendered tuple contains two entries named `err`. -/
theorem parseTuple_duplicate_err :
    parseTuple ⟨"p", "p"⟩
        [⟨"err", GoType.basic "error"⟩, ⟨"", GoType.basic "error"⟩] "r" =
      ("err error, err error", "err, err") := by
  decide

/-- Well-formedness of the type grammar as go/types guarantees it: every
basic or named type carries a non-empty name. -/
def GoType.wfB : GoType → Bool
  | .basic n => n != ""
  | .named _ n => n != ""
  | .ptr t => t.wfB
  | .slice t => t.wfB

theorem str_ne_empty_of_length_pos (s : String) (h : 0 < s.length) : s ≠ "" := by
  intro he
  rw [he] at h
  exact absurd h (by decide)

theorem typeString_ne_empty (pkgQual : GoPackage → String) (t : GoType)
    (h : t.wfB = true) : typeString pkgQual t ≠ "" := by
  induction t with
  | basic n =>
    simpa [GoType.wfB, typeString] using h
  | named pkg n =>
    have hn : n ≠ "" := by simpa [GoType.wfB] using h
    by_cases hq : pkgQual pkg = ""
    · simpa [typeString, hq] using hn
    · apply str_ne_empty_of_length_pos
      simp only [typeString, if_neg hq]
      rw [String.length_append, String.length_append]
      have : ("." : String).length = 1 := by decide
      omega
  | ptr t ih =>
    apply str_ne_empty_of_length_pos
    simp only [typeString]
    rw [String.length_append]
    have : ("*" : String).length = 1 := by decide
    omega
  | slice t ih =>
    apply str_ne_empty_of_length_pos
    simp only [typeString]
    rw [String.length_append]
    have : ("[]" : String).length = 2 := by decide
    omega

theorem parseTupleEntries_length (pkgQual : GoPackage → String) (pfx : String) :
    ∀ (l : List TupleVar) (i : Nat) (eu : Bool),
    (parseTupleEntries pkgQual pfx i eu l).length = l.length := by
  intro l
  induction l with
  | nil => intro i eu; rfl
  | cons v rest ih =>
    intro i eu
    simp only [parseTupleEntries, List.length_cons]
    rw [ih]

theorem parseTupleEntries_snd (pkgQual : GoPackage → String) (pfx : String) :
    ∀ (l : List TupleVar) (i : Nat) (eu : Bool) (j : Nat),
    ((parseTupleEntries pkgQual pfx i eu l)[j]?).map Prod.snd =
      (l[j]?).map (fun v => typeString pkgQual v.ty) := by
  intro l
  induction l with
  | nil => intro i eu j; rfl
  | cons v rest ih =>
    intro i eu j
    cases j with
    | zero => simp [parseTupleEntries]
    | succ j =>
      simp only [parseTupleEntries, List.getElem?_cons_succ]
      exact ih (i + 1) _ j

theorem parseTupleEntries_snd_ne_empty (pkgQual : GoPackage → String) (pfx : String) :
    ∀ (l : List TupleVar) (i : Nat) (eu : Bool),
    (∀ v ∈ l, v.ty.wfB = true) →
    ∀ e ∈ parseTupleEntries pkgQual pfx i eu l, e.2 ≠ "" := by
  intro l
  induction l with
  | nil =>
    intro i eu _ e he
    exact absurd he (List.not_mem_nil e)
  | cons v rest ih =>
    intro i eu hwf e he
    simp only [parseTupleEntries, List.mem_cons] at he
    cases he with
    | inl h0 =>
      rw [h0]
      exact typeString_ne_empty pkgQual v.ty (hwf v (List.mem_cons_self v rest))
    | inr h1 =>
      exact ih (i + 1) _ (fun w hw => hwf w (List.mem_cons_of_mem v hw)) e h1

/-- C8: the rendered parameter and result texts of `parseTuple` are
internally consistent with the original tuple. The joined texts are exactly
the declaration form and bare-names form of a per-entry list that has the
same length as the tuple; the j-th entry's rendered type is the rendering of
the j-th tuple variable's type, in order; and (given go/types
well-formedness: non-empty type names) no entry's rendered type is empty. -/
theorem parseTuple_consistent (thisPkg : GoPackage) (tuple : List TupleVar)
    (pfx : String) (h : ∀ v ∈ tuple, v.ty.wfB = true) :
    parseTuple thisPkg tuple pfx =
      (declText (parseTupleEntries (newPackageQualifier thisPkg) pfx 0 false tuple),
       argsText (parseTupleEntries (newPackageQualifier thisPkg) pfx 0 false tuple)) ∧
    (parseTupleEntries (newPackageQualifier thisPkg) pfx 0 false tuple).length =
      tuple.length ∧
    (∀ j : Nat,
      ((parseTupleEntries (newPackageQualifier thisPkg) pfx 0 false tuple)[j]?).map
          Prod.snd =
        (tuple[j]?).map (fun v => typeString (newPackageQualifier thisPkg) v.ty)) ∧
    (∀ e ∈ parseTupleEntries (newPackageQualifier thisPkg) pfx 0 false tuple,
      e.2 ≠ "") :=
  ⟨parseTuple_eq_entries thisPkg tuple pfx,
   parseTupleEntries_length (newPackageQualifier thisPkg) pfx tuple 0 false,
   fun j => parseTupleEntries_snd (newPackageQualifier thisPkg) pfx tuple 0 false j,
   parseTupleEntries_snd_ne_empty (newPackageQualifier thisPkg) pfx tuple 0 false h⟩

theorem parseTuple_consistent_witness :
    parseTuple ⟨"p", "p"⟩
        [⟨"n", GoType.basic "int"⟩, ⟨"", GoType.basic "error"⟩] "r" =
      ("n int, err error", "n, err") := by
  have h := parseTuple_consistent ⟨"p", "p"⟩
      [⟨"n", GoType.basic "int"⟩, ⟨"", GoType.basic "error"⟩] "r" (by decide)
  rw [h.1]
  decide

/-- Identity of a `go/build.Package` as `importPackage` returns it. -/
structure BuildPackage where
  importPath : String
  name : String
deriving DecidableEq, Repr

/-- The vendor candidate path tried for an ancestor prefix: the prefix (its
segments are stored reversed, so `filepath.Dir` is `List.tail`), then a
`vendor` segment, then the target import path
(`filepath.Join(vendorPrefix, "vendor", srcPath)`). -/
def candidatePath (rpfx srcPath : List String) : List String :=
  rpfx.reverse ++ "vendor" :: srcPath

/-- Embedding of the `for` loop of `importPackage` (src/ifacegen.go:160-173).
`env` models `build.Import` (`none` = resolution error); the vendor prefix is
a reversed segment list, the empty list standing for both `""` and `"."`,
which the source treats identically: for them the raw `srcPath` is tried and
a failure is fatal (`Except.error`); otherwise the `vendor`-joined candidate
is tried and a failure moves one ancestor up (`filepath.Dir`, i.e. `tail` of
the reversed prefix). -/
def importLoop (env : List String → Option BuildPackage) (srcPath : List String) :
    List String → Except String BuildPackage
  | [] =>
    match env srcPath with
    | some pkg => Except.ok pkg
    | none => Except.error "import pkg"
  | r :: rest =>
    match env (candidatePath (r :: rest) srcPath) with
    | some pkg => Except.ok pkg
    | none => importLoop env srcPath rest

/-- Embedding of `importPackage` (src/ifacegen.go:149-174): an empty import
path resolves the current working directory as a package (`wd` models
`build.ImportDir` on the working directory); otherwise the vendor-fallback
loop runs. -/
def importPackage (wd : Option BuildPackage)
    (env : List String → Option BuildPackage)
    (rpfx srcPath : List String) : Except String BuildPackage :=
  if srcPath = [] then
    match wd with
    | some pkg => Except.ok pkg
    | none => Except.error "importdir wd"
  else importLoop env srcPath rpfx

/-- The chain of ancestor prefixes the loop walks, from the destination
package's own location upward (reversed segment lists), excluding the empty
prefix. -/
def ancestorChain : List String → List (List String)
  | [] => []
  | r :: rest => (r :: rest) :: ancestorChain rest

/-- The resolution candidates in the order the loop tries them: the
`vendor`-joined path under each ancestor, deepest first, and the raw import
path last. -/
def candidates (rpfx srcPath : List String) : List (List String) :=
  (ancestorChain rpfx).map (fun p => candidatePath p srcPath) ++ [srcPath]

/-- First successful resolution among a list of candidates; the not-found
error when all of them fail. -/
def firstHit (env : List String → Option BuildPackage) :
    List (List String) → Except String BuildPackage
  | [] => Except.error "import pkg"
  | c :: cs =>
    match env c with
    | some pkg => Except.ok pkg
    | none => firstHit env cs

theorem importLoop_eq_firstHit (env : List String → Option BuildPackage)
    (srcPath : List String) : ∀ rpfx : List String,
    importLoop env srcPath rpfx = firstHit env (candidates rpfx srcPath) := by
  intro rpfx
  induction rpfx with
  | nil =>
    cases henv : env srcPath <;>
      simp [importLoop, candidates, ancestorChain, firstHit, henv]
  | cons r rest ih =>
    cases henv : env (candidatePath (r :: rest) srcPath) <;>
      simp [importLoop, candidates, ancestorChain, firstHit, henv, ih]

/-- C2 (amended): for a non-empty import path the locator tries the
`vendor`-joined candidates from the destination package's own location
walking upward, and tries the direct path last, once the ancestor chain is
exhausted; it returns the package of the first successful attempt (an early
failure followed by a later success returns the later package) and fails
only when every candidate fails. An empty import path resolves the current
working directory as a package. -/
theorem importPackage_first_success (wd : Option BuildPackage)
    (env : List String → Option BuildPackage) (rpfx srcPath : List String) :
    importPackage wd env rpfx srcPath =
      if srcPath = [] then
        (match wd with
         | some pkg => Except.ok pkg
         | none => Except.error "importdir wd")
      else firstHit env (candidates rpfx srcPath) := by
  by_cases hs : srcPath = [] <;>
    simp [importPackage, hs, importLoop_eq_firstHit]

def pkgDirect : BuildPackage := ⟨"p", "p"⟩

def pkgVendor : BuildPackage := ⟨"a/vendor/p", "p"⟩

/-- A resolution environment in which both the direct path `p` and the
vendor candidate `a/vendor/p` resolve, to distinct packages. -/
def env0 : List String → Option BuildPackage := fun c =>
  if c = ["a", "vendor", "p"] then some pkgVendor
  else if c = ["p"] then some pkgDirect
  else none

/-- The locator as the claim describes it: direct resolution of the path
first, the vendor-joined ancestor candidates only on failure. -/
def importPackageClaim (wd : Option BuildPackage)
    (env : List String → Option BuildPackage)
    (rpfx srcPath : List String) : Except String BuildPackage :=
  if srcPath = [] then
    match wd with
    | some pkg => Except.ok pkg
    | none => Except.error "importdir wd"
  else
    match env srcPath with
    | some pkg => Except.ok pkg
    | none => firstHit env ((ancestorChain rpfx).map (fun p => candidatePath p srcPath))

/-- C2 counterexample: with destination prefix `a` and import path `p`, the
direct resolution of `p` succeeds, so a direct-resolution-first locator
returns `pkgDirect`; the source's loop instead returns the package found
under `a/vendor/p`, because the vendor candidates are tried before the
direct path, not after. -/
theorem importPackage_direct_first_counterexample :
    env0 ["p"] = some pkgDirect ∧
    importPackageClaim none env0 ["a"] ["p"] = Except.ok pkgDirect ∧
    importPackage none env0 ["a"] ["p"] = Except.ok pkgVendor ∧
    pkgVendor ≠ pkgDirect := by
  refine ⟨by decide, rfl, rfl, by decide⟩

/-- Fuel-indexed version of the loop: `none` means the iteration budget ran
out before the loop returned. -/
def importLoopFuel (env : List String → Option BuildPackage)
    (srcPath : List String) : Nat → List String → Option (Except String BuildPackage)
  | 0, _ => none
  | _ + 1, [] =>
    match env srcPath with
    | some pkg => some (Except.ok pkg)
    | none => some (Except.error "import pkg")
  | n + 1, r :: rest =>
    match env (candidatePath (r :: rest) srcPath) with
    | some pkg => some (Except.ok pkg)
    | none => importLoopFuel env srcPath n rest

/-- C7: the vendor-fallback loop terminates. Within a budget of one
iteration per ancestor of the destination location plus the final direct
attempt, it returns — a resolved package or, once the ancestor chain is
exhausted, the not-found error — rather than running forever. -/
theorem importLoop_terminates (env : List String → Option BuildPackage)
    (srcPath : List String) : ∀ rpfx : List String,
    importLoopFuel env srcPath (rpfx.length + 1) rpfx =
      some (importLoop env srcPath rpfx) := by
  intro rpfx
  induction rpfx with
  | nil =>
    cases henv : env srcPath <;> simp [importLoopFuel, importLoop, henv]
  | cons r rest ih =>
    cases henv : env (candidatePath (r :: rest) srcPath) <;>
      simp [importLoopFuel, importLoop, henv, ih]

/-- Index of the last occurrence of `c` in the character list, as an
`Option`: helper for the embedding of `strings.LastIndex`. -/
def lastIndexAux (c : Char) : List Char → Option Nat
  | [] => none
  | x :: xs =>
    match lastIndexAux c xs with
    | some k => some (k + 1)
    | none => if x = c then some 0 else none

/-- Embedding of `strings.LastIndex(s, c)` for a one-character needle: the
index of the last occurrence, `-1` when absent. -/
def lastIndex (s : List Char) (c : Char) : Int :=
  match lastIndexAux c s with
  | some k => (k : Int)
  | none => -1

/-- Embedding of the interface-identifier split of `parseFlag`
(src/ifacegen.go:80-89): when the identifier contains a `.`, it is split at
the last `.` into import path and interface name, unless the last `/` lies
at or after that `.` (`j >= i`), which is fatal; with no `.` the import path
stays empty. -/
def parseFlagSplit (s : List Char) : Except String (List Char × List Char) :=
  if 0 ≤ lastIndex s '.' then
    if lastIndex s '.' ≤ lastIndex s '/' then Except.error "malformed ifacename"
    else Except.ok (s.take (lastIndex s '.').toNat, s.drop ((lastIndex s '.').toNat + 1))
  else Except.ok ([], s)

theorem lastIndexAux_eq_none (c : Char) :
    ∀ s : List Char, lastIndexAux c s = none ↔ c ∉ s := by
  intro s
  induction s with
  | nil => simp [lastIndexAux]
  | cons x xs ih =>
    simp only [lastIndexAux]
    cases h : lastIndexAux c xs with
    | some k =>
      have hmem : c ∈ xs := by
        by_contra hc
        rw [ih.mpr hc] at h
        cases h
      simp [hmem]
    | none =>
      have hnot : c ∉ xs := ih.mp h
      by_cases hx : x = c
      · subst hx
        simp
      · simp [hx, hnot, Ne.symm hx]

theorem lastIndexAux_sound (c : Char) :
    ∀ (s : List Char) (k : Nat), lastIndexAux c s = some k → s.get? k = some c := by
  intro s
  induction s with
  | nil => intro k h; cases h
  | cons x xs ih =>
    intro k h
    simp only [lastIndexAux] at h
    cases h2 : lastIndexAux c xs with
    | some k2 =>
      rw [h2] at h
      injection h with h3
      subst h3
      simpa using ih k2 h2
    | none =>
      rw [h2] at h
      by_cases hx : x = c
      · rw [if_pos hx] at h
        injection h with h3
        subst h3
        simp [hx]
      · rw [if_neg hx] at h
        cases h

theorem lastIndexAux_last (c : Char) :
    ∀ (s : List Char) (k : Nat), lastIndexAux c s = some k →
      ∀ m, k < m → s.get? m ≠ some c := by
  intro s
  induction s with
  | nil => intro k h; cases h
  | cons x xs ih =>
    intro k h m hm
    simp only [lastIndexAux] at h
    cases h2 : lastIndexAux c xs with
    | some k2 =>
      rw [h2] at h
      injection h with h3
      subst h3
      cases m with
      | zero => exact absurd hm (Nat.not_lt_zero _)
      | succ m =>
        have hlt : k2 < m := Nat.lt_of_succ_lt_succ hm
        simpa using ih k2 h2 m hlt
    | none =>
      rw [h2] at h
      by_cases hx : x = c
      · rw [if_pos hx] at h
        injection h with h3
        subst h3
        cases m with
        | zero => exact absurd hm (Nat.lt_irrefl 0)
        | succ m =>
          have hnot : c ∉ xs := (lastIndexAux_eq_none c xs).mp h2
          intro hc
          exact hnot (List.get?_mem (by simpa using hc))
      · rw [if_neg hx] at h
        cases h

theorem lastIndexAux_complete (c : Char) :
    ∀ (s : List Char) (j : Nat), s.get? j = some c →
      ∃ k, j ≤ k ∧ lastIndexAux c s = some k := by
  intro s
  induction s with
  | nil => intro j h; simp at h
  | cons x xs ih =>
    intro j h
    cases j with
    | zero =>
      have hx : x = c := by simpa using h
      simp only [lastIndexAux]
      cases h2 : lastIndexAux c xs with
      | some k2 => exact ⟨k2 + 1, Nat.zero_le _, rfl⟩
      | none => exact ⟨0, Nat.le_refl 0, by rw [if_pos hx]⟩
    | succ j =>
      have h3 : xs.get? j = some c := by simpa using h
      obtain ⟨k2, hk2, haux⟩ := ih j h3
      simp only [lastIndexAux]
      rw [haux]
      exact ⟨k2 + 1, Nat.succ_le_succ hk2, rfl⟩

/-- C5: an identifier with no `.` keeps an empty import path (the interface
is looked up in the current package); when the last `.` sits at position `i`,
the identifier is rejected as malformed whenever some `/` occurs at or after
`i`, and otherwise is split at `i` into import path and interface name. -/
theorem parseFlag_split_spec (s : List Char) :
    ('.' ∉ s → parseFlagSplit s = Except.ok ([], s)) ∧
    (∀ i : Nat, s.get? i = some '.' →
      (∀ m, m < s.length → i < m → s.get? m ≠ some '.') →
      (((∃ j, i ≤ j ∧ s.get? j = some '/') →
          parseFlagSplit s = Except.error "malformed ifacename") ∧
       ((∀ j, j < s.length → i ≤ j → s.get? j ≠ some '/') →
          parseFlagSplit s = Except.ok (s.take i, s.drop (i + 1))))) := by
  constructor
  · intro h
    have hnone : lastIndexAux '.' s = none := (lastIndexAux_eq_none '.' s).mpr h
    have e1 : lastIndex s '.' = -1 := by simp [lastIndex, hnone]
    have hneg0 : ¬((0 : Int) ≤ -1) := by decide
    simp [parseFlagSplit, e1, hneg0]
  · intro i hi hlast
    have hdot : lastIndexAux '.' s = some i := by
      obtain ⟨k, hik, haux⟩ := lastIndexAux_complete '.' s i hi
      have hkd : s.get? k = some '.' := lastIndexAux_sound '.' s k haux
      have hklen : k < s.length := (List.get?_eq_some.mp hkd).1
      rcases Nat.lt_or_ge i k with hlt | hge
      · exact absurd hkd (hlast k hklen hlt)
      · have heq : i = k := Nat.le_antisymm hik hge
        rw [heq]
        exact haux
    have e1 : lastIndex s '.' = (i : Int) := by simp [lastIndex, hdot]
    constructor
    · rintro ⟨j, hij, hj⟩
      obtain ⟨k2, hjk2, haux2⟩ := lastIndexAux_complete '/' s j hj
      have e2 : lastIndex s '/' = (k2 : Int) := by simp [lastIndex, haux2]
      have hik2 : (i : Int) ≤ (k2 : Int) := Int.ofNat_le.mpr (Nat.le_trans hij hjk2)
      simp [parseFlagSplit, e1, e2, Int.natCast_nonneg i, hik2]
    · intro hnos
      cases haux2 : lastIndexAux '/' s with
      | none =>
        have e2 : lastIndex s '/' = -1 := by simp [lastIndex, haux2]
        have hneg : ¬((i : Int) ≤ (-1 : Int)) := by
          intro hle
          have h0 := le_trans (Int.natCast_nonneg i) hle
          omega
        simp [parseFlagSplit, e1, e2, Int.natCast_nonneg i, hneg, Int.toNat_natCast]
      | some k2 =>
        have e2 : lastIndex s '/' = (k2 : Int) := by simp [lastIndex, haux2]
        have hk2c : s.get? k2 = some '/' := lastIndexAux_sound '/' s k2 haux2
        have hk2len : k2 < s.length := (List.get?_eq_some.mp hk2c).1
        have hnlt : ¬(i ≤ k2) := fun hle => hnos k2 hk2len hle hk2c
        have hneg : ¬((i : Int) ≤ (k2 : Int)) := fun hle => hnlt (Int.ofNat_le.mp hle)
        simp [parseFlagSplit, e1, e2, Int.natCast_nonneg i, hneg, Int.toNat_natCast]

theorem parseFlag_split_spec_witness :
    parseFlagSplit "Foo".data = Except.ok ([], "Foo".data) ∧
    parseFlagSplit "a.b/c".data = Except.error "malformed ifacename" ∧
    parseFlagSplit "net/http.Handler".data =
      Except.ok ("net/http".data, "Handler".data) := by
  refine ⟨(parseFlag_split_spec "Foo".data).1 (by decide), ?_, ?_⟩
  · exact ((parseFlag_split_spec "a.b/c".data).2 1 (by decide) (by decide)).1
      ⟨3, by decide, by decide⟩
  · have h := ((parseFlag_split_spec "net/http.Handler".data).2 8 (by decide)
      (by decide)).2 (by decide)
    rw [h]
    exact congrArg Except.ok (by decide)

/-- A method signature as the symbol table hands it to `parseMethod`
(`*types.Func` with its `*types.Signature`): name, parameter tuple, result
tuple. -/
structure FuncSig where
  name : String
  params : List TupleVar
  results : List TupleVar
deriving Repr

instance : Inhabited FuncSig := ⟨⟨"", [], []⟩⟩

/-- The interface shape returned by `findInterface` (`*types.Interface`):
`methods.length` models `NumMethods()` and the i-th element models
`Method(i)`. Per the symbol-table collaborator's contract the enumeration is
the interface's declaration order. -/
structure IfaceShape where
  methods : List FuncSig

/-- Reading of `iface.Method(i)` in the source loop. -/
def methodAt (iface : IfaceShape) (i : Nat) : FuncSig := iface.methods.getD i default

/-- One variable of a signature as `types.TypeString` renders it inside a
`func(...)` type: `name type` when named, bare type otherwise. -/
def sigVarText (pkgQual : GoPackage → String) (v : TupleVar) : String :=
  if v.name = "" then typeString pkgQual v.ty
  else v.name ++ " " ++ typeString pkgQual v.ty

/-- Comma-joined tuple rendering inside a signature type. -/
def sigTupleText (pkgQual : GoPackage → String) : List TupleVar → String
  | [] => ""
  | v :: vs => sigVarText pkgQual v ++ strConcat (vs.map fun w => ", " ++ sigVarText pkgQual w)

/-- Model of `types.TypeString` on a method's signature (the `Sig` field of
a `Method`): `func(params)` followed by the results, parenthesized unless
there is exactly one anonymous result. -/
def sigText (pkgQual : GoPackage → String) (fn : FuncSig) : String :=
  "func(" ++ sigTupleText pkgQual fn.params ++ ")" ++
  (match fn.results with
   | [] => ""
   | [v] =>
     if v.name = "" then " " ++ typeString pkgQual v.ty
     else " (" ++ sigTupleText pkgQual [v] ++ ")"
   | v :: w :: rest => " (" ++ sigTupleText pkgQual (v :: w :: rest) ++ ")")

/-- The `Method` template data structure (src/ifacegen.go:132-139). -/
structure Method where
  Method : String
  Sig : String
  Params : String
  Args : String
  Results : String
  ResultVars : String
deriving DecidableEq, Repr

/-- The `Interface` template data structure (src/ifacegen.go:141-147). -/
structure Interface where
  PkgName : String
  Interface : String
  Struct : String
  Receiver : String
  Methods : List Method

/-- Embedding of `parseMethod` (src/ifacegen.go:245-260). -/
def parseMethod (thisPkg : GoPackage) (fn : FuncSig) : Method :=
  { Method := fn.name
    Sig := sigText (newPackageQualifier thisPkg) fn
    Params := (parseTuple thisPkg fn.params "a").1
    Args := (parseTuple thisPkg fn.params "a").2
    Results := (parseTuple thisPkg fn.results "r").1
    ResultVars := (parseTuple thisPkg fn.results "r").2 }

/-- Embedding of the method loop of `parseMethods` (src/ifacegen.go:186-190)
from loop counter `i` on: `for i := 0; i < iface.NumMethods(); i++` appending
`parseMethod(thisPkg, iface.Method(i))`. -/
def parseMethodsFrom (thisPkg : GoPackage) (iface : IfaceShape) (i : Nat) : List Method :=
  if h : i < iface.methods.length then
    parseMethod thisPkg (methodAt iface i) :: parseMethodsFrom thisPkg iface (i + 1)
  else []
termination_by iface.methods.length - i

/-- Embedding of `parseMethods` (src/ifacegen.go:176-191) from the found
interface shape on (package loading and `findInterface` are the external
collaborators that produce `iface`). -/
def parseMethods (thisPkg : GoPackage) (iface : IfaceShape) : List Method :=
  parseMethodsFrom thisPkg iface 0

theorem drop_eq_getD_cons (d : FuncSig) :
    ∀ (l : List FuncSig) (i : Nat), i < l.length →
      l.drop i = l.getD i d :: l.drop (i + 1) := by
  intro l
  induction l with
  | nil => intro i hi; exact absurd hi (Nat.not_lt_zero i)
  | cons a as ih =>
    intro i hi
    cases i with
    | zero => simp
    | succ i =>
      have h2 := ih i (Nat.lt_of_succ_lt_succ hi)
      simpa using h2

theorem parseMethodsFrom_eq (thisPkg : GoPackage) (iface : IfaceShape) :
    ∀ (n i : Nat), iface.methods.length - i ≤ n →
      parseMethodsFrom thisPkg iface i =
        (iface.methods.drop i).map (parseMethod thisPkg) := by
  intro n
  induction n with
  | zero =>
    intro i hi
    have hle : iface.methods.length ≤ i :=
      Nat.le_of_sub_eq_zero (Nat.le_zero.mp hi)
    unfold parseMethodsFrom
    rw [dif_neg (Nat.not_lt.mpr hle), List.drop_eq_nil_of_le hle]
    rfl
  | succ n ih =>
    intro i hi
    by_cases h : i < iface.methods.length
    · unfold parseMethodsFrom
      rw [dif_pos h, ih (i + 1) (by omega), drop_eq_getD_cons default iface.methods i h]
      rfl
    · unfold parseMethodsFrom
      rw [dif_neg h, List.drop_eq_nil_of_le (Nat.not_lt.mp h)]
      rfl

/-- C1: for an interface with N methods, `parseMethods` produces exactly N
`Method` entries, and the i-th entry is `parseMethod` of the i-th method in
the interface's method enumeration (declaration order per the symbol-table
contract) — the loop never re-sorts. -/
theorem parseMethods_order (thisPkg : GoPackage) (iface : IfaceShape) :
    (parseMethods thisPkg iface).length = iface.methods.length ∧
    ∀ i : Nat, (parseMethods thisPkg iface)[i]? =
      (iface.methods[i]?).map (parseMethod thisPkg) := by
  have hmap : parseMethods thisPkg iface = iface.methods.map (parseMethod thisPkg) := by
    have h0 := parseMethodsFrom_eq thisPkg iface iface.methods.length 0 (by omega)
    simpa [parseMethods] using h0
  constructor
  · simp [hmap]
  · intro i
    simp [hmap]

/-- The indexed `{{range $i, $m := $x.Methods}}` body of the `const` block
of `mockTpl` (src/ifacegen.go:280-281): one line `call<Method> = <i>` per
method, `i` being the running index. -/
def mockConstLoop : Nat → List Method → String
  | _, [] => ""
  | i, m :: rest =>
    "call" ++ m.Method ++ " = " ++ toString i ++ "\n  " ++ mockConstLoop (i + 1) rest

/-- The struct-field range body of `mockTpl` (src/ifacegen.go:287-288): one
`<Method>Mock <Sig>` field per method. -/
def mockFieldLine (m : Method) : String :=
  "\n  " ++ m.Method ++ "Mock " ++ m.Sig

/-- The per-method range body of `mockTpl` (src/ifacegen.go:292-307): the
method implementation followed by its call-count accessor. -/
def mockMethodSection (x : Interface) (m : Method) : String :=
  "\nfunc (m " ++ x.Receiver ++ ") " ++ m.Method ++ "(" ++ m.Params ++ ") (" ++
    m.Results ++ ") \x7b\n" ++
  ("  atomic.AddInt32(&m.callCounts[call" ++ m.Method ++ "], 1)\n") ++
  ("  if m." ++ m.Method ++ "Mock == nil \x7b\n    if m.PanicIfNotMocked \x7b\n      panic(\"" ++
    m.Method ++ " is not mocked\")\n    \x7d\n    return " ++ m.ResultVars ++ "\n  \x7d\n") ++
  ("  " ++ (if m.Results ≠ "" then "return " else "") ++ "m." ++ m.Method ++ "Mock(" ++
    m.Args ++ ")\n") ++
  "\x7d\n" ++
  ("\nfunc (m " ++ x.Receiver ++ ") " ++ m.Method ++
    "CallCount() int \x7b\n  return int(atomic.LoadInt32(&m.callCounts[call" ++ m.Method ++
    "]))\n\x7d\n")

/-- Embedding of the full `mockTpl` rendering (src/ifacegen.go:275-309):
header, package clause, `const` block of per-method indices, the mock struct
(`PanicIfNotMocked` flag, one override field per method, the fixed-size
`callCounts` array), and the per-method implementations. -/
def mockRender (x : Interface) : String :=
  "// @generated by ifacegen\n" ++ "\npackage " ++ x.PkgName ++ "\n\nconst (\n  " ++
  mockConstLoop 0 x.Methods ++ ")\n\ntype " ++ x.Struct ++
  " struct \x7b\n  PanicIfNotMocked bool\n\n  " ++
  strConcat (x.Methods.map mockFieldLine) ++
  "\n\n  callCounts [" ++ toString x.Methods.length ++ "]int32\n\x7d\n" ++
  strConcat (x.Methods.map (mockMethodSection x)) ++ "\n" ++ "\n"

/-- Claim-side: the `const` line of the method paired with its zero-based
positional index. -/
def mockConstLineSpec (p : Nat × Method) : String :=
  "call" ++ p.2.Method ++ " = " ++ toString p.1 ++ "\n  "

/-- Claim-side: the body first bumps the method's dedicated counter slot. -/
def countIncrement (m : Method) : String :=
  "  atomic.AddInt32(&m.callCounts[call" ++ m.Method ++ "], 1)\n"

/-- Claim-side: when the `<Method>Mock` field is unset the body panics if
`PanicIfNotMocked` is set and otherwise returns the declared result
variables (the zero values of the named results). -/
def unmockedFallback (m : Method) : String :=
  "  if m." ++ m.Method ++ "Mock == nil \x7b\n    if m.PanicIfNotMocked \x7b\n      panic(\"" ++
    m.Method ++ " is not mocked\")\n    \x7d\n    return " ++ m.ResultVars ++ "\n  \x7d\n"

/-- Claim-side: otherwise the body forwards the bare argument names to the
override function and returns its results (no `return` keyword when the
method has no results). -/
def forwardCall (m : Method) : String :=
  "  " ++ (if m.Results ≠ "" then "return " else "") ++ "m." ++ m.Method ++ "Mock(" ++
    m.Args ++ ")\n"

/-- Claim-side: the companion accessor reading the method's call count. -/
def callCountAccessor (x : Interface) (m : Method) : String :=
  "\nfunc (m " ++ x.Receiver ++ ") " ++ m.Method ++
    "CallCount() int \x7b\n  return int(atomic.LoadInt32(&m.callCounts[call" ++ m.Method ++
    "]))\n\x7d\n"

/-- Claim-side: each method section is signature line, counter increment,
unset-override fallback, forwarding call, close, accessor — in that order. -/
def mockMethodSpec (x : Interface) (m : Method) : String :=
  "\nfunc (m " ++ x.Receiver ++ ") " ++ m.Method ++ "(" ++ m.Params ++ ") (" ++
    m.Results ++ ") \x7b\n" ++
  countIncrement m ++ unmockedFallback m ++ forwardCall m ++ "\x7d\n" ++
  callCountAccessor x m

/-- Claim-side assembly of the mock file: constants from the zero-based
enumeration of the methods in order, a `callCounts` array sized exactly to
the method count, and the per-method bodies of `mockMethodSpec`. -/
def mockRenderSpec (x : Interface) : String :=
  "// @generated by ifacegen\n" ++ "\npackage " ++ x.PkgName ++ "\n\nconst (\n  " ++
  strConcat ((List.enumFrom 0 x.Methods).map mockConstLineSpec) ++ ")\n\ntype " ++ x.Struct ++
  " struct \x7b\n  PanicIfNotMocked bool\n\n  " ++
  strConcat (x.Methods.map mockFieldLine) ++
  "\n\n  callCounts [" ++ toString x.Methods.length ++ "]int32\n\x7d\n" ++
  strConcat (x.Methods.map (mockMethodSpec x)) ++ "\n" ++ "\n"

theorem mockConstLoop_enumFrom :
    ∀ (ms : List Method) (n : Nat),
      mockConstLoop n ms = strConcat ((List.enumFrom n ms).map mockConstLineSpec) := by
  intro ms
  induction ms with
  | nil => intro n; rfl
  | cons m rest ih =>
    intro n
    simp only [mockConstLoop, List.enumFrom, List.map, strConcat, mockConstLineSpec]
    rw [ih]

theorem mockMethodSection_eq (x : Interface) (m : Method) :
    mockMethodSection x m = mockMethodSpec x m := rfl

/-- C6: the mock template renders, for an interface with N methods, one
zero-based integer constant per method in method order (the i-th method's
constant equals i), a call-count array field of size exactly N, and for each
method a body that increments its dedicated counter slot, then — with the
`<Method>Mock` field unset — panics when `PanicIfNotMocked` is set and
otherwise returns the declared (zero-valued) results, and — with the field
set — forwards the bare argument names to the override and returns its
results, followed by the call-count accessor. -/
theorem mockRender_structure (x : Interface) : mockRender x = mockRenderSpec x := by
  have hfun : mockMethodSection x = mockMethodSpec x :=
    funext fun m => mockMethodSection_eq x m
  unfold mockRender mockRenderSpec
  rw [mockConstLoop_enumFrom, hfun]

end Ifacegen
